import Mathlib

/-
Verification of the listed_buildings repository.

Part I models the hotspot-generation pipeline (the repository's Python
`hotspots` step: buffer points, dissolve by union, optional negative
buffer, filter by minimum area).  The Python sources themselves are not
part of the checked-in tree, so the pipeline is modelled from the design
specification; every such definition carries a doc comment starting with
"Modelled from the spec:".

Part II models the front-end logic of docs/app.js that the remaining
claims are about (URL-hash parsing and the hover feature-state handlers);
those definitions are translated directly from the JavaScript source.
-/

/-- Modelled from the spec: the pipeline configuration value object with
fields `bufferDistance` (> 0), `negativeBufferDistance` (>= 0), `minArea`
(>= 0) and the metric coordinate system identifier.  Numeric parameters
are modelled as exact rationals. -/
structure Config where
  bufferDistance : ℚ
  negativeBufferDistance : ℚ
  minArea : ℚ
  metricCrs : String

/-- Modelled from the spec: one raw input coordinate value, which is
either an ordinary finite number, a non-finite floating value (NaN or an
infinity), or missing altogether. -/
inductive Coord where
  | finite (q : ℚ)
  | nonFinite
  | missing

/-- Whether the coordinate value is an ordinary finite number. -/
def Coord.isFinite : Coord → Bool
  | .finite _ => true
  | .nonFinite => false
  | .missing => false

/-- Value of a finite coordinate, with a default for the invalid cases
(only ever used after validation has ruled those out). -/
def Coord.valOr (c : Coord) (d : ℚ) : ℚ :=
  match c with
  | .finite q => q
  | .nonFinite => d
  | .missing => d

/-- Modelled from the spec: an input record is a 2D coordinate in the
metric planar projection together with arbitrary string-keyed attributes
carried through unchanged. -/
structure InputRecord where
  x : Coord
  y : Coord
  attributes : List (String × String)

/-- Modelled from the spec: the two error kinds of the pipeline, a
configuration error (invalid parameter values, detected before any
processing) and a data error carrying the index of the offending input
record. -/
inductive PipelineError where
  | configError
  | dataError (index : ℕ)
deriving DecidableEq

/-- Modelled from the spec: a configuration is valid when
`bufferDistance > 0`, `minArea >= 0` and `negativeBufferDistance >= 0`. -/
def validConfig (cfg : Config) : Prop :=
  0 < cfg.bufferDistance ∧ 0 ≤ cfg.minArea ∧ 0 ≤ cfg.negativeBufferDistance

instance (cfg : Config) : Decidable (validConfig cfg) := by
  unfold validConfig
  infer_instance

/-- Whether an input record has two ordinary finite coordinates. -/
def goodRecord (r : InputRecord) : Bool :=
  r.x.isFinite && r.y.isFinite

/-- Modelled from the spec: index of the first input record with a
non-finite or missing coordinate, if any. -/
def findBad : List InputRecord → Option ℕ
  | [] => none
  | r :: rs =>
    if goodRecord r then Option.map (fun k => k + 1) (findBad rs)
    else some 0

/-- Coordinates of a validated input record. -/
def toPoint (r : InputRecord) : ℚ × ℚ :=
  (r.x.valOr 0, r.y.valOr 0)

/-- Squared Euclidean distance between two planar points. -/
def sqDist (p q : ℚ × ℚ) : ℚ :=
  (p.1 - q.1) ^ 2 + (p.2 - q.2) ^ 2

/-- Modelled from the spec: two closed disks of radius `d` centred at `p`
and `q` overlap exactly when the distance of the centres is at most `2·d`,
stated on squared distances to stay in exact rational arithmetic. -/
def overlapsB (d : ℚ) (p q : ℚ × ℚ) : Bool :=
  decide (sqDist p q ≤ (2 * d) ^ 2)

/-- Whether the disk around `p` overlaps some disk of the given cluster. -/
def touches (d : ℚ) (p : ℚ × ℚ) (cluster : List (ℚ × ℚ)) : Bool :=
  cluster.any (fun q => overlapsB d p q)

/-- Modelled from the spec: one step of the dissolve stage.  Adding a
point merges every existing cluster whose buffered region overlaps the
new point's disk into a single cluster containing the new point. -/
def addPoint (d : ℚ) (clusters : List (List (ℚ × ℚ))) (p : ℚ × ℚ) :
    List (List (ℚ × ℚ)) :=
  let pr := clusters.partition (fun c => touches d p c)
  (p :: pr.1.flatten) :: pr.2

/-- Modelled from the spec: the dissolve (unary union) stage, computing
one cluster of buffered points per connected group of overlapping disks,
by folding the points into an initially empty cluster list. -/
def clustersOf (pts : List (ℚ × ℚ)) (d : ℚ) : List (List (ℚ × ℚ)) :=
  pts.foldl (addPoint d) []

/-- Modelled from the spec: an output hotspot polygon, identified by the
cluster of buffered point centres whose merged disks form its shape. -/
structure Hotspot where
  centers : List (ℚ × ℚ)

/-- The working plane, with the Euclidean metric. -/
abbrev Plane := EuclideanSpace ℝ (Fin 2)

/-- Embedding of a rational coordinate pair into the plane. -/
noncomputable def toPlane (p : ℚ × ℚ) : Plane :=
  (WithLp.equiv 2 (Fin 2 → ℝ)).symm ![(p.1 : ℝ), (p.2 : ℝ)]

/-- Modelled from the spec: the union of the closed disks of radius `d`
around the given centres (stages 1 and 2: buffering and dissolve). -/
def diskUnion (centers : List (ℚ × ℚ)) (d : ℝ) : Set Plane :=
  ⋃ c ∈ centers, Metric.closedBall (toPlane c) d

/-- Modelled from the spec: the negative buffer (inward shrink) of a
planar region by distance `d`: the points whose whole `d`-disk lies in
the region. -/
def negBuffer (d : ℝ) (s : Set Plane) : Set Plane :=
  {x : Plane | Metric.closedBall x d ⊆ s}

/-- Modelled from the spec: the region of a hotspot polygon, the union of
its buffered disks, shrunk inward when a positive negative-buffer
distance is configured (stage 3). -/
def Hotspot.region (h : Hotspot) (cfg : Config) : Set Plane :=
  if 0 < cfg.negativeBufferDistance then
    negBuffer (cfg.negativeBufferDistance : ℝ)
      (diskUnion h.centers (cfg.bufferDistance : ℝ))
  else diskUnion h.centers (cfg.bufferDistance : ℝ)

/-- Modelled from the spec: the computed area of a hotspot polygon, the
Lebesgue measure of its region. -/
noncomputable def Hotspot.area (h : Hotspot) (cfg : Config) : ℝ :=
  (MeasureTheory.volume (h.region cfg)).toReal

/-- Modelled from the spec: the area filter predicate of stage 4, keeping
a polygon exactly when its area is at least `minArea`. -/
noncomputable def keepsArea (cfg : Config) (h : Hotspot) : Bool :=
  @decide ((cfg.minArea : ℝ) ≤ h.area cfg) (Classical.propDecidable _)

/-- Modelled from the spec: the full hotspot-generation pipeline.
Configuration is validated first (failing fast with a configuration
error), then the input records are validated (a non-finite or missing
coordinate fails the whole run with a data error naming the first
offending record), and only then the four geometric stages run: buffer,
dissolve into clusters, negative buffer (inside `Hotspot.region`), and
the strict area filter. -/
noncomputable def generate (points : List InputRecord) (cfg : Config) :
    Except PipelineError (List Hotspot) :=
  if validConfig cfg then
    match findBad points with
    | some i => Except.error (PipelineError.dataError i)
    | none =>
      let hs := (clustersOf (points.map toPoint) cfg.bufferDistance).map Hotspot.mk
      Except.ok (hs.filter (keepsArea cfg))
  else Except.error PipelineError.configError

/- Helper lemmas about the pipeline, shared by several claims. -/

lemma generate_of_invalid {cfg : Config} (pts : List InputRecord)
    (hv : ¬ validConfig cfg) :
    generate pts cfg = Except.error PipelineError.configError := by
  unfold generate
  rw [if_neg hv]

lemma generate_of_dataError {cfg : Config} {pts : List InputRecord} {i : ℕ}
    (hv : validConfig cfg) (hb : findBad pts = some i) :
    generate pts cfg = Except.error (PipelineError.dataError i) := by
  unfold generate
  rw [if_pos hv, hb]

lemma generate_of_valid {cfg : Config} {pts : List InputRecord}
    (hv : validConfig cfg) (hb : findBad pts = none) :
    generate pts cfg =
      Except.ok (((clustersOf (pts.map toPoint) cfg.bufferDistance).map
        Hotspot.mk).filter (keepsArea cfg)) := by
  unfold generate
  rw [if_pos hv, hb]

lemma area_nonneg (h : Hotspot) (cfg : Config) : 0 ≤ h.area cfg :=
  ENNReal.toReal_nonneg

lemma keepsArea_eq_true_iff (cfg : Config) (h : Hotspot) :
    keepsArea cfg h = true ↔ (cfg.minArea : ℝ) ≤ h.area cfg := by
  unfold keepsArea
  exact decide_eq_true_iff

lemma findBad_eq_none_iff (l : List InputRecord) :
    findBad l = none ↔ ∀ r ∈ l, goodRecord r = true := by
  induction l with
  | nil => simp [findBad]
  | cons r rs ih =>
    by_cases hg : goodRecord r = true
    · rw [findBad, if_pos hg]
      simp [hg, ih]
    · rw [findBad, if_neg hg]
      simp only [Bool.not_eq_true] at hg
      simp [hg]

lemma findBad_some_spec (l : List InputRecord) (i : ℕ)
    (h : findBad l = some i) :
    ∃ hi : i < l.length, goodRecord (l.get ⟨i, hi⟩) = false := by
  induction l generalizing i with
  | nil => simp [findBad] at h
  | cons r rs ih =>
    by_cases hg : goodRecord r = true
    · rw [findBad, if_pos hg] at h
      obtain ⟨j, hj, hji⟩ := Option.map_eq_some'.mp h
      obtain ⟨hjlen, hjbad⟩ := ih j hj
      subst hji
      exact ⟨by simpa using Nat.succ_lt_succ hjlen, by simpa using hjbad⟩
    · rw [findBad, if_neg hg] at h
      obtain rfl : (0 : ℕ) = i := Option.some.inj h
      simp only [Bool.not_eq_true] at hg
      exact ⟨by simp, by simpa using hg⟩

/-- C2: for every configuration with non-positive bufferDistance, negative
minArea or negative negativeBufferDistance, and for every point sequence,
the pipeline fails with a configuration error before any geometric
processing occurs (the result is the same for every input, including
inputs whose records are themselves invalid); the model is a pure
function, so the failed call has no side effects. -/
theorem generate_config_error_fast (pts : List InputRecord) (cfg : Config)
    (hbad : cfg.bufferDistance ≤ 0 ∨ cfg.minArea < 0 ∨
      cfg.negativeBufferDistance < 0) :
    generate pts cfg = Except.error PipelineError.configError := by
  apply generate_of_invalid
  rintro ⟨h1, h2, h3⟩
  rcases hbad with h | h | h <;> linarith

/-- Witness for C2: a zero buffer distance is rejected with a
configuration error even on a record with invalid coordinates, showing
that configuration is checked before any data is touched. -/
theorem generate_config_error_fast_witness :
    ((⟨0, 0, 0, ""⟩ : Config).bufferDistance ≤ 0 ∨
      (⟨0, 0, 0, ""⟩ : Config).minArea < 0 ∨
      (⟨0, 0, 0, ""⟩ : Config).negativeBufferDistance < 0) ∧
    generate [⟨Coord.nonFinite, Coord.missing, []⟩] ⟨0, 0, 0, ""⟩ =
      Except.error PipelineError.configError := by
  refine ⟨Or.inl (by norm_num), ?_⟩
  exact generate_config_error_fast _ _ (Or.inl (by norm_num))

/-- C8: on the empty point sequence, every valid configuration yields the
empty polygon set and no error. -/
theorem generate_empty_input (cfg : Config) (hv : validConfig cfg) :
    generate [] cfg = Except.ok [] := by
  have h0 : findBad [] = none := rfl
  rw [generate_of_valid hv h0]
  rfl

/-- Witness for C8: the default configuration of the pipeline (buffer
200, no negative buffer, minimum area 1000) on no points. -/
theorem generate_empty_input_witness :
    validConfig ⟨200, 0, 1000, ""⟩ ∧
    generate [] ⟨200, 0, 1000, ""⟩ = Except.ok [] := by
  have hv : validConfig ⟨200, 0, 1000, ""⟩ := by
    refine ⟨by norm_num, by norm_num, by norm_num⟩
  exact ⟨hv, generate_empty_input _ hv⟩

/-- C4: the pipeline is deterministic; two calls on identical input yield
the identical polygon list, with the same shapes, the same derived areas
and the same stable ordering, because the model is a pure function of the
point sequence and the configuration. -/
theorem generate_deterministic (pts₁ pts₂ : List InputRecord)
    (cfg₁ cfg₂ : Config) (hpts : pts₁ = pts₂) (hcfg : cfg₁ = cfg₂) :
    generate pts₁ cfg₁ = generate pts₂ cfg₂ := by
  rw [hpts, hcfg]

/-- Witness for C4: two runs on an identical concrete input agree. -/
theorem generate_deterministic_witness :
    generate [⟨Coord.finite 3, Coord.finite 4, []⟩] ⟨200, 0, 1000, ""⟩ =
      generate [⟨Coord.finite 3, Coord.finite 4, []⟩] ⟨200, 0, 1000, ""⟩ :=
  generate_deterministic _ _ _ _ rfl rfl

/-- C1: every polygon in a successful output of the pipeline has area at
least `minArea`; a polygon of strictly smaller area never appears. -/
theorem generate_area_filter_sound (pts : List InputRecord) (cfg : Config)
    (out : List Hotspot) (h : Hotspot)
    (hgen : generate pts cfg = Except.ok out) (hmem : h ∈ out) :
    (cfg.minArea : ℝ) ≤ h.area cfg := by
  by_cases hv : validConfig cfg
  · cases hfb : findBad pts with
    | some i =>
      rw [generate_of_dataError hv hfb] at hgen
      exact absurd hgen (by simp)
    | none =>
      rw [generate_of_valid hv hfb] at hgen
      obtain rfl := (Except.ok.injEq _ _).mp hgen.symm
      exact (keepsArea_eq_true_iff cfg h).mp (List.mem_filter.mp hmem).2
  · rw [generate_of_invalid pts hv] at hgen
    exact absurd hgen (by simp)

/-- Witness for C1: a single point at the origin with buffer distance 1
and minimum area 0 produces one polygon, and that polygon's area is at
least the configured minimum area. -/
theorem generate_area_filter_sound_witness :
    generate [⟨Coord.finite 0, Coord.finite 0, []⟩] ⟨1, 0, 0, ""⟩ =
      Except.ok [Hotspot.mk [(0, 0)]] ∧
    Hotspot.mk [(0, 0)] ∈ [Hotspot.mk [(0, 0)]] ∧
    ((⟨1, 0, 0, ""⟩ : Config).minArea : ℝ) ≤
      (Hotspot.mk [(0, 0)]).area ⟨1, 0, 0, ""⟩ := by
  have hv : validConfig ⟨1, 0, 0, ""⟩ := ⟨by norm_num, by norm_num, by norm_num⟩
  have hfb : findBad [⟨Coord.finite 0, Coord.finite 0, []⟩] = none := rfl
  have hkeep : keepsArea ⟨1, 0, 0, ""⟩ (Hotspot.mk [(0, 0)]) = true := by
    rw [keepsArea_eq_true_iff]
    simpa using area_nonneg (Hotspot.mk [(0, 0)]) ⟨1, 0, 0, ""⟩
  have hgen : generate [⟨Coord.finite 0, Coord.finite 0, []⟩] ⟨1, 0, 0, ""⟩ =
      Except.ok [Hotspot.mk [(0, 0)]] := by
    rw [generate_of_valid hv hfb]
    show Except.ok (List.filter (keepsArea ⟨1, 0, 0, ""⟩) [Hotspot.mk [(0, 0)]]) = _
    rw [List.filter_cons, hkeep]
    rfl
  have hmem : Hotspot.mk [(0, 0)] ∈ [Hotspot.mk [(0, 0)]] := by simp
  exact ⟨hgen, hmem, generate_area_filter_sound _ _ _ _ hgen hmem⟩

/-- C3: for every valid configuration, a point sequence containing a
record with a non-finite or missing coordinate fails the whole run with a
data error whose index identifies an offending record; in particular the
run never returns a (partial) polygon set and never silently skips the
bad record. -/
theorem generate_data_error_on_nonfinite (pts : List InputRecord)
    (cfg : Config) (hv : validConfig cfg)
    (hbad : ∃ r ∈ pts, goodRecord r = false) :
    ∃ i, generate pts cfg = Except.error (PipelineError.dataError i) ∧
      ∃ hi : i < pts.length, goodRecord (pts.get ⟨i, hi⟩) = false := by
  have hnone : findBad pts ≠ none := by
    rw [Ne, findBad_eq_none_iff]
    intro hall
    obtain ⟨r, hr, hg⟩ := hbad
    rw [hall r hr] at hg
    cases hg
  obtain ⟨i, hi⟩ := Option.ne_none_iff_exists'.mp hnone
  exact ⟨i, generate_of_dataError hv hi, findBad_some_spec pts i hi⟩

/-- Witness for C3: with a valid configuration, a sequence holding one
good record and one record with a non-finite y coordinate fails with a
data error identifying an offending record. -/
theorem generate_data_error_on_nonfinite_witness :
    validConfig ⟨200, 0, 1000, ""⟩ ∧
    (∃ r ∈ [⟨Coord.finite 1, Coord.finite 2, []⟩,
        ⟨Coord.finite 3, Coord.nonFinite, []⟩], goodRecord r = false) ∧
    ∃ i, generate [⟨Coord.finite 1, Coord.finite 2, []⟩,
        ⟨Coord.finite 3, Coord.nonFinite, []⟩] ⟨200, 0, 1000, ""⟩ =
        Except.error (PipelineError.dataError i) ∧
      ∃ hi : i < 2,
        goodRecord ([⟨Coord.finite 1, Coord.finite 2, []⟩,
          ⟨Coord.finite 3, Coord.nonFinite, []⟩].get ⟨i, hi⟩) = false := by
  have hv : validConfig ⟨200, 0, 1000, ""⟩ :=
    ⟨by norm_num, by norm_num, by norm_num⟩
  have hb : ∃ r ∈ [(⟨Coord.finite 1, Coord.finite 2, []⟩ : InputRecord),
      ⟨Coord.finite 3, Coord.nonFinite, []⟩], goodRecord r = false :=
    ⟨⟨Coord.finite 3, Coord.nonFinite, []⟩, by simp, rfl⟩
  exact ⟨hv, hb, generate_data_error_on_nonfinite _ _ hv hb⟩

/-- C5: with a positive negative-buffer distance, the region of every
polygon after the negative-buffer stage is contained in the corresponding
merged-disk region that entered the stage, and the stage tolerates
degenerate outcomes without failing: on any validly configured run whose
records are all finite the pipeline still returns a result rather than an
error. -/
theorem negative_buffer_containment (cfg : Config) (h : Hotspot)
    (pts : List InputRecord) (hneg : 0 < cfg.negativeBufferDistance)
    (hv : validConfig cfg) (hdata : findBad pts = none) :
    h.region cfg ⊆ diskUnion h.centers (cfg.bufferDistance : ℝ) ∧
    ∃ out, generate pts cfg = Except.ok out := by
  constructor
  · unfold Hotspot.region
    rw [if_pos hneg]
    intro x hx
    exact hx (Metric.mem_closedBall_self (by exact_mod_cast hneg.le))
  · exact ⟨_, generate_of_valid hv hdata⟩

/-- Witness for C5: the production configuration (buffer 200, negative
buffer 180, minimum area 1000) applied to a concrete polygon and to the
empty record list. -/
theorem negative_buffer_containment_witness :
    (0 : ℚ) < (⟨200, 180, 1000, ""⟩ : Config).negativeBufferDistance ∧
    (Hotspot.mk [(0, 0)]).region ⟨200, 180, 1000, ""⟩ ⊆
      diskUnion [(0, 0)] ((⟨200, 180, 1000, ""⟩ : Config).bufferDistance : ℝ) ∧
    ∃ out, generate [] ⟨200, 180, 1000, ""⟩ = Except.ok out := by
  have hneg : (0 : ℚ) < (⟨200, 180, 1000, ""⟩ : Config).negativeBufferDistance := by
    norm_num
  have hv : validConfig ⟨200, 180, 1000, ""⟩ :=
    ⟨by norm_num, by norm_num, by norm_num⟩
  obtain ⟨hsub, hok⟩ := negative_buffer_containment ⟨200, 180, 1000, ""⟩
    (Hotspot.mk [(0, 0)]) [] hneg hv rfl
  exact ⟨hneg, hsub, hok⟩

lemma filter_keepsArea_all (cfg : Config) (hmin : cfg.minArea = 0)
    (l : List Hotspot) : l.filter (keepsArea cfg) = l := by
  induction l with
  | nil => rfl
  | cons a t ih =>
    have ha : keepsArea cfg a = true := by
      rw [keepsArea_eq_true_iff, hmin]
      simpa using area_nonneg a cfg
    rw [List.filter_cons, ha]
    simp [ih]

lemma addPoint_pair_near (d : ℚ) (p q : ℚ × ℚ)
    (hnear : sqDist q p ≤ (2 * d) ^ 2) :
    addPoint d [[p]] q = [[q, p]] := by
  have ht : touches d q [p] = true := by
    simp [touches, overlapsB, hnear]
  unfold addPoint
  rw [List.partition_eq_filter_filter]
  simp [List.filter_cons, ht]

lemma addPoint_pair_far (d : ℚ) (p q : ℚ × ℚ)
    (hfar : ¬ sqDist q p ≤ (2 * d) ^ 2) :
    addPoint d [[p]] q = [[q], [p]] := by
  have ht : touches d q [p] = false := by
    simp [touches, overlapsB, hfar]
  unfold addPoint
  rw [List.partition_eq_filter_filter]
  simp [List.filter_cons, ht]

lemma clustersOf_pair_near (d : ℚ) (p q : ℚ × ℚ)
    (hnear : sqDist q p ≤ (2 * d) ^ 2) :
    clustersOf [p, q] d = [[q, p]] := by
  show addPoint d (addPoint d [] p) q = _
  rw [show addPoint d [] p = [[p]] from rfl]
  exact addPoint_pair_near d p q hnear

lemma clustersOf_pair_far (d : ℚ) (p q : ℚ × ℚ)
    (hfar : ¬ sqDist q p ≤ (2 * d) ^ 2) :
    clustersOf [p, q] d = [[q], [p]] := by
  show addPoint d (addPoint d [] p) q = _
  rw [show addPoint d [] p = [[p]] from rfl]
  exact addPoint_pair_far d p q hfar

/-- C7: with buffer distance `d`, no negative buffer and no minimum area,
two points at distance `2·d − ε` merge into exactly one polygon, while
two points at distance `2·d + ε` stay two separate polygons (for any
positive tolerance `ε ≤ 2·d` keeping the first distance non-negative). -/
theorem two_point_merge_split (d ε : ℚ) (hd : 0 < d) (hε : 0 < ε)
    (hεd : ε ≤ 2 * d) :
    (∃ out, generate [⟨Coord.finite 0, Coord.finite 0, []⟩,
        ⟨Coord.finite (2 * d - ε), Coord.finite 0, []⟩] ⟨d, 0, 0, ""⟩ =
        Except.ok out ∧ out.length = 1) ∧
    (∃ out, generate [⟨Coord.finite 0, Coord.finite 0, []⟩,
        ⟨Coord.finite (2 * d + ε), Coord.finite 0, []⟩] ⟨d, 0, 0, ""⟩ =
        Except.ok out ∧ out.length = 2) := by
  have hv : validConfig ⟨d, 0, 0, ""⟩ := ⟨hd, le_refl 0, le_refl 0⟩
  constructor
  · have hfb : findBad [⟨Coord.finite 0, Coord.finite 0, []⟩,
        ⟨Coord.finite (2 * d - ε), Coord.finite 0, []⟩] = none := rfl
    have hmap : [(⟨Coord.finite 0, Coord.finite 0, []⟩ : InputRecord),
        ⟨Coord.finite (2 * d - ε), Coord.finite 0, []⟩].map toPoint =
        [(0, 0), (2 * d - ε, 0)] := rfl
    have hnear : sqDist (2 * d - ε, 0) ((0 : ℚ), (0 : ℚ)) ≤ (2 * d) ^ 2 := by
      have h4 : (0 : ℚ) ≤ ε * (4 * d - ε) :=
        mul_nonneg hε.le (by linarith)
      simp only [sqDist]
      nlinarith [h4]
    refine ⟨[Hotspot.mk [(2 * d - ε, 0), (0, 0)]], ?_, rfl⟩
    rw [generate_of_valid hv hfb]
    rw [show (⟨d, 0, 0, ""⟩ : Config).bufferDistance = d from rfl]
    rw [hmap, clustersOf_pair_near d _ _ hnear]
    rw [show (List.map Hotspot.mk [[(2 * d - ε, 0), ((0 : ℚ), (0 : ℚ))]]) =
      [Hotspot.mk [(2 * d - ε, 0), (0, 0)]] from rfl]
    rw [filter_keepsArea_all _ rfl]
  · have hfb : findBad [⟨Coord.finite 0, Coord.finite 0, []⟩,
        ⟨Coord.finite (2 * d + ε), Coord.finite 0, []⟩] = none := rfl
    have hmap : [(⟨Coord.finite 0, Coord.finite 0, []⟩ : InputRecord),
        ⟨Coord.finite (2 * d + ε), Coord.finite 0, []⟩].map toPoint =
        [(0, 0), (2 * d + ε, 0)] := rfl
    have hfar : ¬ sqDist (2 * d + ε, 0) ((0 : ℚ), (0 : ℚ)) ≤ (2 * d) ^ 2 := by
      simp only [sqDist, not_le]
      nlinarith [mul_pos hε (show (0 : ℚ) < 4 * d + ε by linarith)]
    refine ⟨[Hotspot.mk [(2 * d + ε, 0)], Hotspot.mk [(0, 0)]], ?_, rfl⟩
    rw [generate_of_valid hv hfb]
    rw [show (⟨d, 0, 0, ""⟩ : Config).bufferDistance = d from rfl]
    rw [hmap, clustersOf_pair_far d _ _ hfar]
    rw [show (List.map Hotspot.mk [[((2 : ℚ) * d + ε, (0 : ℚ))],
      [((0 : ℚ), (0 : ℚ))]]) =
      [Hotspot.mk [(2 * d + ε, 0)], Hotspot.mk [(0, 0)]] from rfl]
    rw [filter_keepsArea_all _ rfl]

/-- Witness for C7: buffer distance 1 and tolerance 1, so the two point
pairs sit at distances 1 and 3 around the merge threshold 2. -/
theorem two_point_merge_split_witness :
    (∃ out, generate [⟨Coord.finite 0, Coord.finite 0, []⟩,
        ⟨Coord.finite (2 * 1 - 1), Coord.finite 0, []⟩] ⟨1, 0, 0, ""⟩ =
        Except.ok out ∧ out.length = 1) ∧
    (∃ out, generate [⟨Coord.finite 0, Coord.finite 0, []⟩,
        ⟨Coord.finite (2 * 1 + 1), Coord.finite 0, []⟩] ⟨1, 0, 0, ""⟩ =
        Except.ok out ∧ out.length = 2) :=
  two_point_merge_split 1 1 (by norm_num) (by norm_num) (by norm_num)

/-- Modelled from the spec: the overlap graph of the dissolve stage.  One
vertex per input point; two distinct points are adjacent exactly when
their buffered disks of radius `d` overlap, i.e. when their centre
distance is at most `2·d`.  The disjoint connected regions produced by
the union are one per connected cluster of overlapping disks, that is,
one per connected component of this graph. -/
def overlapGraph (pts : List (ℚ × ℚ)) (d : ℚ) :
    SimpleGraph (Fin pts.length) where
  Adj i j := i ≠ j ∧ sqDist (pts.get i) (pts.get j) ≤ (2 * d) ^ 2
  symm := by
    intro i j h
    obtain ⟨hne, hd⟩ := h
    refine ⟨hne.symm, ?_⟩
    have hsymm : sqDist (pts.get j) (pts.get i) =
        sqDist (pts.get i) (pts.get j) := by
      unfold sqDist
      ring
    rw [hsymm]
    exact hd
  loopless := by
    intro i h
    exact h.1 rfl

/-- Modelled from the spec: the number of disjoint connected regions
produced by the union stage, i.e. the number of connected components of
the overlap graph. -/
noncomputable def clusterCount (pts : List (ℚ × ℚ)) (d : ℚ) : ℕ :=
  Nat.card (overlapGraph pts d).ConnectedComponent

/-- C6: increasing the buffer distance can only merge clusters, never
split them — with a larger buffer distance the union stage never produces
more disjoint connected regions than with a smaller one. -/
theorem buffer_union_cluster_monotone (pts : List (ℚ × ℚ)) (d₁ d₂ : ℚ)
    (h0 : 0 < d₁) (h12 : d₁ < d₂) :
    clusterCount pts d₂ ≤ clusterCount pts d₁ := by
  have hle : overlapGraph pts d₁ ≤ overlapGraph pts d₂ := by
    intro i j h
    obtain ⟨hne, hd⟩ := h
    refine ⟨hne, hd.trans ?_⟩
    nlinarith [mul_pos (sub_pos.mpr h12) (show (0 : ℚ) < d₂ + d₁ by linarith)]
  have hsurj : Function.Surjective
      (SimpleGraph.ConnectedComponent.map
        (SimpleGraph.Hom.mapSpanningSubgraphs hle)) := by
    intro c
    refine c.ind (fun v => ?_)
    exact ⟨(overlapGraph pts d₁).connectedComponentMk v,
      SimpleGraph.ConnectedComponent.map_mk _ _⟩
  exact Nat.card_le_card_of_surjective _ hsurj

/-- Witness for C6: two points whose disks overlap at buffer distance 2
but not at buffer distance 1. -/
theorem buffer_union_cluster_monotone_witness :
    (0 : ℚ) < 1 ∧ (1 : ℚ) < 2 ∧
    clusterCount [(0, 0), (3, 0)] 2 ≤ clusterCount [(0, 0), (3, 0)] 1 :=
  ⟨by norm_num, by norm_num,
    buffer_union_cluster_monotone [(0, 0), (3, 0)] 1 2 (by norm_num) (by norm_num)⟩

/-
Part II: front-end logic of docs/app.js.  JavaScript strings are
modelled as lists of characters.
-/

/-- Removal of the first occurrence of a character, modelling the
JavaScript replace call on the location hash with a one-character string
pattern, which replaces only the first occurrence (docs/app.js line 7). -/
def removeFirst (c : Char) : List Char → List Char
  | [] => []
  | x :: xs => if x = c then xs else x :: removeFirst c xs

/-- Splitting on a separator character, modelling the JavaScript split
call with a one-character separator string (docs/app.js line 9); the
empty string splits into a single empty part. -/
def splitOnChar (c : Char) : List Char → List (List Char)
  | [] => [[]]
  | x :: xs =>
    let r := splitOnChar c xs
    if x = c then [] :: r
    else
      match r with
      | [] => [[x]]
      | y :: ys => (x :: y) :: ys

/-- A map viewport position: a center as a (lng, lat) pair and a zoom
level, over an abstract JavaScript number type. -/
structure JSPosition (α : Type) where
  center : α × α
  zoom : α

/-- Translated from docs/app.js, getInitialPosition (lines 6 to 28).
The function strips the first hash mark from window.location.hash, and
when the rest is non-empty, splits into exactly three slash-separated
parts parsed as zoom, lat and lng; if every part parses to a non-NaN
number it returns that position with center ordered as (lng, lat),
otherwise the configured default center and zoom.  `pf` models the
host's parseFloat combined with the isNaN test (`none` for NaN) and
`cfg` models window.MAP_CONFIG. -/
def getInitialPosition {α : Type} (pf : List Char → Option α)
    (cfg : JSPosition α) (locationHash : List Char) : JSPosition α :=
  let hash := removeFirst '#' locationHash
  if hash = [] then ⟨cfg.center, cfg.zoom⟩
  else
    match splitOnChar '/' hash with
    | [zs, las, lns] =>
      match pf zs, pf las, pf lns with
      | some z, some la, some ln => ⟨(ln, la), z⟩
      | _, _, _ => ⟨cfg.center, cfg.zoom⟩
    | _ => ⟨cfg.center, cfg.zoom⟩

lemma splitOnChar_ne_nil (c : Char) (l : List Char) :
    splitOnChar c l ≠ [] := by
  cases l with
  | nil => simp [splitOnChar]
  | cons x xs =>
    unfold splitOnChar
    by_cases hx : x = c
    · simp [hx]
    · simp only [if_neg hx]
      cases splitOnChar c xs with
      | nil => simp
      | cons y ys => simp

lemma splitOnChar_nil_eq (c : Char) : splitOnChar c [] = [[]] := rfl

/-- C9: for every URL hash string, getInitialPosition returns the
configured default center and zoom unless the hash (with its first hash
mark removed) splits on the slash separator into exactly three parts,
each parsing to a non-NaN number; in that valid case it returns the zoom
parsed from the first part and the center assembled as (lng, lat) from
the third and second parts. -/
theorem getInitialPosition_cases {α : Type} (pf : List Char → Option α)
    (cfg : JSPosition α) (s : List Char) :
    (∀ zs las lns z la ln,
      splitOnChar '/' (removeFirst '#' s) = [zs, las, lns] →
      pf zs = some z → pf las = some la → pf lns = some ln →
      getInitialPosition pf cfg s = ⟨(ln, la), z⟩) ∧
    ((¬ ∃ zs las lns z la ln,
        splitOnChar '/' (removeFirst '#' s) = [zs, las, lns] ∧
        pf zs = some z ∧ pf las = some la ∧ pf lns = some ln) →
      getInitialPosition pf cfg s = ⟨cfg.center, cfg.zoom⟩) := by
  constructor
  · intro zs las lns z la ln hsplit hz hla hln
    have hne : removeFirst '#' s ≠ [] := by
      intro h0
      rw [h0, splitOnChar_nil_eq] at hsplit
      simp at hsplit
    simp [getInitialPosition, hne, hsplit, hz, hla, hln]
  · intro hnot
    simp only [getInitialPosition]
    by_cases hne : removeFirst '#' s = []
    · simp [hne]
    · simp only [if_neg hne]
      cases hsp : splitOnChar '/' (removeFirst '#' s) with
      | nil => rfl
      | cons a t =>
        cases t with
        | nil => rfl
        | cons b t2 =>
          cases t2 with
          | nil => rfl
          | cons c t3 =>
            cases t3 with
            | cons d t4 => rfl
            | nil =>
              cases hza : pf a with
              | none => simp [hza]
              | some z =>
                cases hlb : pf b with
                | none => simp [hza, hlb]
                | some la =>
                  cases hlc : pf c with
                  | none => simp [hza, hlb, hlc]
                  | some ln =>
                    exact absurd ⟨a, b, c, z, la, ln, hsp, hza, hlb, hlc⟩ hnot

/-- Sample number parser for the C9 witness: parses the single digits
used in the witness hash and rejects everything else. -/
def samplePF : List Char → Option ℚ :=
  fun s =>
    if s = ['1'] then some 1
    else if s = ['2'] then some 2
    else if s = ['3'] then some 3
    else none

/-- Witness for C9: the hash string made of the characters of the text
hash-1-slash-2-slash-3 parses into zoom 1 and center (3, 2), i.e. the
lng/lat order is swapped relative to the hash order. -/
theorem getInitialPosition_cases_witness :
    splitOnChar '/' (removeFirst '#' ['#', '1', '/', '2', '/', '3']) =
      [['1'], ['2'], ['3']] ∧
    samplePF ['1'] = some 1 ∧ samplePF ['2'] = some 2 ∧
    samplePF ['3'] = some 3 ∧
    getInitialPosition samplePF ⟨((0 : ℚ), 0), 0⟩
      ['#', '1', '/', '2', '/', '3'] = ⟨(3, 2), 1⟩ := by
  refine ⟨by decide, by decide, by decide, by decide, ?_⟩
  exact (getInitialPosition_cases samplePF ⟨((0 : ℚ), 0), 0⟩
    ['#', '1', '/', '2', '/', '3']).1 ['1'] ['2'] ['3'] 1 2 3
    (by decide) (by decide) (by decide) (by decide)

/-
The hover feature-state logic of docs/app.js (lines 128 to 159).
-/

/-- Translated from docs/app.js: the hover state, made of the
module-level hoveredHotspotId variable and the per-feature hover
feature-state stored for the hotspots source. -/
structure HoverState where
  hoveredHotspotId : Option ℕ
  featureHover : ℕ → Bool

/-- The events the two hotspots-fill handlers react to: a mousemove over
the layer carrying the ids of the features under the pointer, and a
mouseleave. -/
inductive MapEvent where
  | mousemove (featureIds : List ℕ)
  | mouseleave

/-- Translated from the setFeatureState calls: set the hover
feature-state of one feature id. -/
def setHover (f : ℕ → Bool) (i : ℕ) (b : Bool) : ℕ → Bool :=
  fun j => if j = i then b else f j

/-- The clearing step shared by both handlers: when hoveredHotspotId is
not null, set the hover state of that feature to false. -/
def clearHovered (st : HoverState) : ℕ → Bool :=
  match st.hoveredHotspotId with
  | some old => setHover st.featureHover old false
  | none => st.featureHover

/-- Translated from docs/app.js: the mousemove handler (when e.features
is non-empty, clear the previously hovered feature, remember the id of
the first feature and set its hover state to true) and the mouseleave
handler (clear the hovered feature and reset hoveredHotspotId to null). -/
def hoverStep (st : HoverState) : MapEvent → HoverState
  | .mousemove [] => st
  | .mousemove (f :: _) =>
      { hoveredHotspotId := some f
        featureHover := setHover (clearHovered st) f true }
  | .mouseleave =>
      { hoveredHotspotId := none, featureHover := clearHovered st }

/-- The state before any event: hoveredHotspotId is null and no feature
is in the hover state. -/
def initialHoverState : HoverState :=
  ⟨none, fun _ => false⟩

/-- The hover state reached after a sequence of events. -/
def runEvents (evs : List MapEvent) : HoverState :=
  evs.foldl hoverStep initialHoverState

/-- The inductive invariant of the handlers: every feature in the hover
state is the currently remembered hovered feature. -/
def hoverInv (st : HoverState) : Prop :=
  ∀ i, st.featureHover i = true → st.hoveredHotspotId = some i

lemma clearHovered_eq_true (st : HoverState) (i : ℕ)
    (h : clearHovered st i = true) :
    st.featureHover i = true ∧ st.hoveredHotspotId ≠ some i := by
  unfold clearHovered at h
  cases hh : st.hoveredHotspotId with
  | none =>
    rw [hh] at h
    exact ⟨h, by simp [hh]⟩
  | some old =>
    rw [hh] at h
    have h2 : (if i = old then false else st.featureHover i) = true := h
    by_cases hio : i = old
    · rw [if_pos hio] at h2
      cases h2
    · rw [if_neg hio] at h2
      refine ⟨h2, ?_⟩
      intro he
      exact hio (Option.some.inj he).symm

lemma hoverInv_step (st : HoverState) (e : MapEvent) (hst : hoverInv st) :
    hoverInv (hoverStep st e) := by
  cases e with
  | mousemove fs =>
    cases fs with
    | nil => exact hst
    | cons f rest =>
      intro i hi
      simp only [hoverStep] at hi ⊢
      unfold setHover at hi
      by_cases hif : i = f
      · rw [hif]
      · rw [if_neg hif] at hi
        obtain ⟨hfv, hne⟩ := clearHovered_eq_true st i hi
        exact absurd (hst i hfv) hne
  | mouseleave =>
    intro i hi
    simp only [hoverStep] at hi
    obtain ⟨hfv, hne⟩ := clearHovered_eq_true st i hi
    exact absurd (hst i hfv) hne

lemma hoverInv_run (evs : List MapEvent) : hoverInv (runEvents evs) := by
  suffices hgen : ∀ st, hoverInv st → hoverInv (evs.foldl hoverStep st) from
    hgen initialHoverState (fun i hi => by cases hi)
  induction evs with
  | nil => exact fun st hst => hst
  | cons e t ih =>
    intro st hst
    exact ih (hoverStep st e) (hoverInv_step st e hst)

/-- C10: after any sequence of mousemove and mouseleave events on the
hotspots-fill layer starting from the initial state, at most one hotspot
feature has hover feature-state true; and after a trailing mouseleave
event hoveredHotspotId is null and no hotspot feature remains in the
hover state. -/
theorem hover_state_invariant (evs : List MapEvent) :
    (∀ i j, (runEvents evs).featureHover i = true →
      (runEvents evs).featureHover j = true → i = j) ∧
    (runEvents (evs ++ [MapEvent.mouseleave])).hoveredHotspotId = none ∧
    ∀ i, (runEvents (evs ++ [MapEvent.mouseleave])).featureHover i = false := by
  have hinv : hoverInv (runEvents evs) := hoverInv_run evs
  have happ : runEvents (evs ++ [MapEvent.mouseleave]) =
      hoverStep (runEvents evs) MapEvent.mouseleave := by
    unfold runEvents
    rw [List.foldl_append]
    rfl
  refine ⟨?_, ?_, ?_⟩
  · intro i j hi hj
    have h1 := hinv i hi
    have h2 := hinv j hj
    rw [h1] at h2
    exact Option.some.inj h2
  · rw [happ]
    rfl
  · intro i
    rw [happ]
    show clearHovered (runEvents evs) i = false
    cases hcl : clearHovered (runEvents evs) i with
    | false => rfl
    | true =>
      obtain ⟨hfv, hne⟩ := clearHovered_eq_true _ _ hcl
      exact absurd (hinv i hfv) hne

/-- Witness for C10: after hovering feature 5 its hover state is true,
the at-most-one property applies to it, and a mouseleave clears both the
remembered id and the feature state. -/
theorem hover_state_invariant_witness :
    (runEvents [MapEvent.mousemove [5]]).featureHover 5 = true ∧
    (5 : ℕ) = 5 ∧
    (runEvents ([MapEvent.mousemove [5]] ++ [MapEvent.mouseleave])).hoveredHotspotId
      = none ∧
    (runEvents ([MapEvent.mousemove [5]] ++
      [MapEvent.mouseleave])).featureHover 5 = false := by
  refine ⟨rfl, ?_, ?_, ?_⟩
  · exact (hover_state_invariant [MapEvent.mousemove [5]]).1 5 5 rfl rfl
  · exact (hover_state_invariant [MapEvent.mousemove [5]]).2.1
  · exact (hover_state_invariant [MapEvent.mousemove [5]]).2.2 5
